import Mathlib

/-!
Shallow embedding of `graph.py` (NAND-expression reducer over a directed graph).

Modelling conventions:
* Python objects of class `Node` are modelled as pairs of an allocation
  identifier `nid` (object identity: Python's default `__eq__`/`__hash__`
  compare identity, and `Node` overrides neither) and the held integer `value`.
* Python's arbitrary-precision `int` is `Int`; `~x` is `-(x+1)` and `&` is
  two's-complement bitwise AND (four-case definition below).
* The Python `set`/`dict` of the `Graph` class are modelled as
  insertion-ordered lists; the adjacency `dict` is keyed by object identity,
  i.e. by `nid`.
* `re.search` with the pattern `!\((\d*).(\d*)\)` is modelled by an explicit
  backtracking matcher (`searchNand`): leftmost position first, greedy digit
  runs tried longest-first, the unescaped `.` matching any character except
  a newline.  `\d` is modelled as an ASCII digit.
* `str.replace` replaces every non-overlapping occurrence, left to right.
* Exceptions are modelled with `Except`; the recursion of the reduction loop
  is bounded by a fuel argument whose sufficiency is proved below
  (`countBP`, the number of `!(` occurrences, strictly decreases).
-/

namespace NandGraph

/-- A graph vertex: `nid` models Python object identity, `value` is the
integer held by the node (`Node._value` in `graph.py`). -/
structure Node where
  nid : Nat
  value : Int
deriving DecidableEq, Repr

/-- The NAND gate of `graph.py` (`class NAND`): two input nodes.  The lazily
cached output is modelled by the pure function `NAND.outputValue`, which is
sound because inputs are immutable and the cache is only read once per gate
in `parse_input`. -/
structure NAND where
  input_a : Node
  input_b : Node
deriving DecidableEq, Repr

/-- Error kinds raised by the Graph class: `ValueError('Node already exists')`,
`ValueError('Nodes not present in the Graph!')`,
`ValueError('No Node exists with the given value')`, and a Python `KeyError`
from indexing the adjacency dict with a non-key object. -/
inductive GErr where
  | nodeExists
  | nodesNotPresent
  | noNodeWithValue
  | keyError
deriving DecidableEq, Repr

/-- The directed graph of `graph.py` (`class Graph`): a set of nodes and an
adjacency dict from node (by identity, hence keyed by `nid`) to a set of
destination nodes. -/
structure Graph where
  nodes : List Node
  edges : List (Nat × List Node)
deriving DecidableEq, Repr

/-- The freshly constructed graph of `parse_input` (`graph = Graph()`). -/
def emptyGraph : Graph := ⟨[], []⟩

/-- `Graph.has_node`: linear scan comparing held values (`i.value == node.value`). -/
def has_node (g : Graph) (node : Node) : Bool :=
  g.nodes.any (fun i => i.value == node.value)

/-- `Graph.get_node`: return the stored node holding `value`, else
`ValueError('No Node exists with the given value')`. -/
def get_node (g : Graph) (value : Int) : Except GErr Node :=
  match g.nodes.find? (fun n => n.value == value) with
  | some n => Except.ok n
  | none => Except.error GErr.noNodeWithValue

/-- Lookup in the adjacency dict, keyed by object identity (`nid`). -/
def lookupEdges : List (Nat × List Node) → Nat → Option (List Node)
  | [], _ => none
  | (k, ds) :: rest, key => if k = key then some ds else lookupEdges rest key

/-- Update the adjacency dict at an existing key. -/
def updateEdges : List (Nat × List Node) → Nat → List Node → List (Nat × List Node)
  | [], _, _ => []
  | (k, ds) :: rest, key, v =>
    if k = key then (k, v) :: rest else (k, ds) :: updateEdges rest key v

/-- `Graph.add_node`: if a node with an equal value is present, raise
`ValueError('Node already exists')` unless `ignore_errors`; otherwise add the
node and an empty destination set for it. -/
def add_node (g : Graph) (node : Node) (ignore_errors : Bool) : Except GErr Graph :=
  if has_node g node then
    if ignore_errors = false then Except.error GErr.nodeExists else Except.ok g
  else
    Except.ok ⟨g.nodes ++ [node], g.edges ++ [(node.nid, [])]⟩

/-- The graph produced by a successful `add_node` call with `ignore_errors`
set (either unchanged, or extended by the node and its empty edge set). -/
def addNodeResult (g : Graph) (node : Node) : Graph :=
  if has_node g node then g
  else ⟨g.nodes ++ [node], g.edges ++ [(node.nid, [])]⟩

/-- `Graph.add_edge`: validate both endpoints by value (`has_node`), raising
`ValueError('Nodes not present in the Graph!')` otherwise; then index the
adjacency dict with the `input_a` object itself — a `KeyError` if that exact
object is not a key — and add `input_b` to the destination set unless the
identical object is already in it. -/
def add_edge (g : Graph) (edge : NAND) : Except GErr Graph :=
  let source := edge.input_a
  let destination := edge.input_b
  if !(has_node g source && has_node g destination) then
    Except.error GErr.nodesNotPresent
  else
    match lookupEdges g.edges source.nid with
    | none => Except.error GErr.keyError
    | some ds =>
      if destination ∈ ds then Except.ok g
      else Except.ok ⟨g.nodes, updateEdges g.edges source.nid (ds ++ [destination])⟩

/-- Python `~a` on `int`: two's-complement NOT, i.e. `-(a+1)`. -/
def pyNot (a : Int) : Int := -(a + 1)

/-- Python `a & b` on `int`: two's-complement bitwise AND (negative numbers
behave as infinite two's-complement bit strings). -/
def pyLand : Int → Int → Int
  | Int.ofNat m, Int.ofNat n => Int.ofNat (m &&& n)
  | Int.ofNat m, Int.negSucc n => Int.ofNat (Nat.ldiff m n)
  | Int.negSucc m, Int.ofNat n => Int.ofNat (Nat.ldiff n m)
  | Int.negSucc m, Int.negSucc n => Int.negSucc (m ||| n)

/-- The width-doubling loop of `NAND._compute`: starting from `bits`, double
while `abs(and_result) >= 2 ** bits`.  The loop is run with fuel; `growBits`
supplies fuel `r + 1`, which is proved sufficient (`growBitsF_lt`). -/
def growBitsF : Nat → Nat → Nat → Nat
  | 0, _, bits => bits
  | f + 1, r, bits => if r < 2 ^ bits then bits else growBitsF f r (bits * 2)

/-- The bit width chosen by `NAND._compute` for magnitude `r`, starting at 4. -/
def growBits (r : Nat) : Nat := growBitsF (r + 1) r 4

/-- The value computed by `NAND._compute`:
`and_result = ~(a & b)`, then `2 ** bits - abs(and_result)` for the
dynamically grown width. -/
def nandValue (a b : Int) : Int :=
  let and_result := pyNot (pyLand a b)
  let bits := growBits and_result.natAbs
  2 ^ bits - (and_result.natAbs : Int)

/-- The output value of a gate (`NAND.output.value` after `_compute`). -/
def NAND.outputValue (e : NAND) : Int := nandValue e.input_a.value e.input_b.value

/-- Existence of a width of the form `4 * 2 ^ k` exceeding any magnitude
(packaged as a definition because the definition `wSpec` consumes it). -/
def wSpec_exists (m : Nat) : ∃ k, m < 2 ^ (4 * 2 ^ k) :=
  ⟨m, lt_of_lt_of_le (Nat.lt_two_pow m)
    (Nat.pow_le_pow_right (by omega)
      (le_trans (le_of_lt (Nat.lt_two_pow m)) (by
        have h2 : 2 ^ m ≤ 4 * 2 ^ m := by omega
        exact h2)))⟩

/-- Modelled from the spec (§8): the smallest `k` with `2 ^ (4 * 2 ^ k) > m`
gives the spec's width `4 * 2 ^ k` (the sequence 4, 8, 16, ...).  Used only to
compare the code's `growBits` with the specification's words. -/
def wSpec (m : Nat) : Nat := 4 * 2 ^ Nat.find (wSpec_exists m)

/-- Boolean list-prefix test (`m` is an initial segment of `s`). -/
def isPre : List Char → List Char → Bool
  | [], _ => true
  | _ :: _, [] => false
  | a :: as, b :: bs => a == b && isPre as bs

/-- Boolean substring test: some occurrence of `m` starts in `s`. -/
def occursIn (m : List Char) : List Char → Bool
  | [] => isPre m []
  | c :: rest => isPre m (c :: rest) || occursIn m rest

/-- Python `str.replace` main loop: replace every non-overlapping occurrence
of `m` (nonempty at every call site) by `t`, scanning left to right.  The
fuel is the length of the string, which is sufficient since each step
consumes at least one character. -/
def replaceAllF (m t : List Char) : Nat → List Char → List Char
  | 0, s => s
  | fuel + 1, s =>
    if isPre m s then t ++ replaceAllF m t fuel (s.drop m.length)
    else
      match s with
      | [] => []
      | c :: rest => c :: replaceAllF m t fuel rest

/-- Python `s.replace(m, t)` (including the degenerate empty-pattern case,
never reached from `parse_input` since the matched group starts with `!(`). -/
def pyReplace (s m t : List Char) : List Char :=
  match m with
  | [] => t ++ (s.map (fun c => c :: t)).flatten
  | _ :: _ => replaceAllF m t s.length s

/-- One unit per adjacent pair `!(`. -/
def bpPair (a b : Char) : Nat := if a = '!' ∧ b = '(' then 1 else 0

/-- Number of occurrences of the two-character string `!(` — the count of
unresolved NAND group markers in a buffer. -/
def countBP : List Char → Nat
  | [] => 0
  | [_] => 0
  | a :: b :: rest => bpPair a b + countBP (b :: rest)

/-- Pair count across a seam (last character of the left part against first
character of the right part). -/
def bpJoin : Option Char → Option Char → Nat
  | some a, some b => bpPair a b
  | _, _ => 0

/-- Length of the maximal ASCII-digit run at the head of the list (the text
the greedy `\d*` consumes before backtracking). -/
def digitRun : List Char → Nat
  | [] => 0
  | c :: rest => if c.isDigit then digitRun rest + 1 else 0

/-- Whether a literal `)` sits at offset `k`. -/
def closeAt (s2 : List Char) (k : Nat) : Bool :=
  match s2.drop k with
  | c :: _ => c == ')'
  | [] => false

/-- Backtracking for the second `\d*`: try to place `)` after `k` digits,
retrying with one digit fewer on failure (greedy, longest first). -/
def tryB (s2 : List Char) : Nat → Option Nat
  | 0 => if closeAt s2 0 then some 0 else none
  | k + 1 => if closeAt s2 (k + 1) then some (k + 1) else tryB s2 k

/-- One attempt for the first `\d*` consuming `k` digits: the unescaped `.`
of the pattern then consumes any single character except a newline, after
which the second group and the closing `)` must match. -/
def tryAAt (rest0 : List Char) (k : Nat) : Option (Nat × Nat) :=
  match rest0.drop k with
  | c :: s2 =>
    if c = '\n' then none
    else
      match tryB s2 (digitRun s2) with
      | some bl => some (k, bl)
      | none => none
  | [] => none

/-- Backtracking for the first `\d*` (greedy, longest first). -/
def tryA (rest0 : List Char) : Nat → Option (Nat × Nat)
  | 0 => tryAAt rest0 0
  | k + 1 =>
    match tryAAt rest0 (k + 1) with
    | some r => some r
    | none => tryA rest0 k

/-- A successful match of the pattern `!\((\d*).(\d*)\)`: the two captured
digit groups and the single character consumed by the unescaped dot. -/
structure NMatch where
  a : List Char
  sep : Char
  b : List Char
deriving DecidableEq, Repr

/-- `match.group()`: the full matched substring. -/
def nmStr (nm : NMatch) : List Char :=
  '!' :: '(' :: (nm.a ++ nm.sep :: (nm.b ++ [')']))

/-- Attempt to match the pattern anchored at the head of `s`, with the
backtracking order of the Python regex engine. -/
def matchCore (rest0 : List Char) : Option NMatch :=
  match tryA rest0 (digitRun rest0) with
  | some (al, bl) =>
    match rest0.drop al with
    | c :: s2 => some ⟨rest0.take al, c, s2.take bl⟩
    | [] => none
  | none => none

/-- Attempt to match the pattern anchored at the head of `s`: the literal
`!(` then the backtracking groups. -/
def matchAt (s : List Char) : Option NMatch :=
  match s with
  | c1 :: c2 :: rest0 => if c1 = '!' ∧ c2 = '(' then matchCore rest0 else none
  | _ => none

/-- `re.search(r'!\((\d*).(\d*)\)', s)`: leftmost matching position. -/
def searchNand : List Char → Option NMatch
  | [] => none
  | c :: rest =>
    match matchAt (c :: rest) with
    | some nm => some nm
    | none => searchNand rest

/-- Decimal digit character for a value in 0..9 (as produced by `str`). -/
def digitChar : Nat → Char
  | 0 => '0'
  | 1 => '1'
  | 2 => '2'
  | 3 => '3'
  | 4 => '4'
  | 5 => '5'
  | 6 => '6'
  | 7 => '7'
  | 8 => '8'
  | _ => '9'

/-- Digits of a natural number, most significant first (fuel-bounded long
division; fuel `n + 1` always suffices). -/
def natDigitsF : Nat → Nat → List Char → List Char
  | 0, _, acc => acc
  | f + 1, n, acc =>
    if n < 10 then digitChar (n % 10) :: acc
    else natDigitsF f (n / 10) (digitChar (n % 10) :: acc)

/-- Decimal digits of a natural number. -/
def natDigits (n : Nat) : List Char := natDigitsF (n + 1) n []

/-- Python `str` on an `int`. -/
def pyStr (v : Int) : List Char :=
  if v < 0 then '-' :: natDigits (-v).toNat else natDigits v.toNat

/-- Whitespace stripped by Python `int`. -/
def isWs (c : Char) : Bool := c = ' ' || c = '\t' || c = '\n' || c = '\r'

/-- Numeric value of a pure digit string. -/
def digitsVal (ds : List Char) : Nat :=
  ds.foldl (fun acc c => 10 * acc + (c.toNat - 48)) 0

/-- A nonempty all-digit string, or failure. -/
def digitsOpt (ds : List Char) : Option Nat :=
  if ds ≠ [] ∧ ds.all Char.isDigit then some (digitsVal ds) else none

/-- Python `int(s)`: strip whitespace, optional sign, nonempty digit string;
`ValueError` (modelled as `none`) otherwise.  (Underscore digit separators
are not modelled; no claim depends on them.) -/
def pyInt (s : List Char) : Option Int :=
  let t := ((s.dropWhile isWs).reverse.dropWhile isWs).reverse
  match t with
  | '+' :: ds => (digitsOpt ds).map (fun n => (n : Int))
  | '-' :: ds => (digitsOpt ds).map (fun n => -(n : Int))
  | ds => (digitsOpt ds).map (fun n => (n : Int))

/-- Python `s.split('.')` (always returns at least one piece). -/
def pySplit : List Char → List (List Char)
  | [] => [[]]
  | c :: rest =>
    let r := pySplit rest
    if c = '.' then [] :: r
    else
      match r with
      | h :: t => (c :: h) :: t
      | [] => [[c]]

/-- `list(map(int, ...))`: all pieces parsed, or the first `ValueError`. -/
def mapPyInt : List (List Char) → Option (List Int)
  | [] => some []
  | p :: rest =>
    match pyInt p with
    | none => none
    | some v =>
      match mapPyInt rest with
      | none => none
      | some vs => some (v :: vs)

/-- Errors escaping `parse_input`: the `InvalidInputError`, a `ValueError`
from `int()`, a graph-layer error, the (unreachable) `IndexError` from
`output[0]` on an empty list, and fuel exhaustion of the bounded model of
the while loop (proved unreachable). -/
inductive PErr where
  | invalidInput
  | valueError
  | graphErr (e : GErr)
  | indexError
  | fuelOut
deriving DecidableEq, Repr

/-- Lines 291–299 of `graph.py`: split the residual buffer on `.`, parse the
operands, then: more than two operands — `InvalidInputError`; exactly two —
bitwise AND; otherwise the single operand (an empty operand list would hit
`output[0]`, an `IndexError`, but `split` never returns an empty list). -/
def finalize (buf : List Char) (g : Graph) : Except PErr (Graph × Int) :=
  match mapPyInt (pySplit buf) with
  | none => Except.error PErr.valueError
  | some output =>
    match output with
    | _ :: _ :: _ :: _ => Except.error PErr.invalidInput
    | [o1, o2] => Except.ok (g, pyLand o1 o2)
    | [o1] => Except.ok (g, o1)
    | [] => Except.error PErr.indexError

/-- Operand resolution of `parse_input`: prefer an existing graph node with
the same value (`graph.get_node` with the `ValueError` caught), else the
freshly allocated node. -/
def resolveNode (g : Graph) (v : Int) (fresh : Nat) : Node :=
  match get_node g v with
  | Except.ok n => n
  | Except.error _ => ⟨fresh, v⟩

/-- One iteration of the while loop of `parse_input` (graph effects): parse
the two captured groups with `int`, resolve operand nodes, build the gate,
insert both inputs (ignoring duplicates), insert the edge, compute the
output and insert it (ignoring duplicates).  Returns the new graph, the next
fresh allocation id, and the gate's output value. -/
def reduceStep (g : Graph) (nid : Nat) (nm : NMatch) : Except PErr (Graph × Nat × Int) :=
  match pyInt nm.a, pyInt nm.b with
  | some v1, some v2 =>
    let node1 := resolveNode g v1 nid
    let node2 := resolveNode g v2 (nid + 1)
    let nand1 : NAND := ⟨node1, node2⟩
    match add_node g node1 true with
    | Except.error e => Except.error (PErr.graphErr e)
    | Except.ok g1 =>
      match add_node g1 node2 true with
      | Except.error e => Except.error (PErr.graphErr e)
      | Except.ok g2 =>
        match add_edge g2 nand1 with
        | Except.error e => Except.error (PErr.graphErr e)
        | Except.ok g3 =>
          match add_node g3 ⟨nid + 2, nand1.outputValue⟩ true with
          | Except.error e => Except.error (PErr.graphErr e)
          | Except.ok g4 => Except.ok (g4, nid + 3, nand1.outputValue)
  | _, _ => Except.error PErr.valueError

/-- The text substitution of one iteration:
`input_string.replace(match.group(), str(output.value))`. -/
def substitute (buf : List Char) (nm : NMatch) (out : Int) : List Char :=
  pyReplace buf (nmStr nm) (pyStr out)

/-- The while loop of `parse_input`: search, reduce, substitute, repeat; on
no match, finalize.  Fuel-bounded; `parse_input` supplies fuel `countBP buf`,
proved sufficient below. -/
def parseLoop : Nat → List Char → Graph → Nat → Except PErr (Graph × Int)
  | 0, buf, g, _ =>
    match searchNand buf with
    | none => finalize buf g
    | some _ => Except.error PErr.fuelOut
  | f + 1, buf, g, nid =>
    match searchNand buf with
    | none => finalize buf g
    | some nm =>
      match reduceStep g nid nm with
      | Except.error e => Except.error e
      | Except.ok (g2, nid2, out) => parseLoop f (substitute buf nm out) g2 nid2

/-- `parse_input` of `graph.py`: evaluate the expression text, returning the
constructed graph and the final integer, or the propagated error. -/
def parse_input (s : List Char) : Except PErr (Graph × Int) :=
  parseLoop (countBP s) s emptyGraph 0

/-- Classifier: the result is a success or one of the two error kinds that
`parse_input` can actually propagate (`InvalidInputError` or a `ValueError`
from `int()`). -/
def isPropagatedOk : Except PErr (Graph × Int) → Bool
  | Except.ok _ => true
  | Except.error PErr.invalidInput => true
  | Except.error PErr.valueError => true
  | Except.error _ => false

/-- Classifier: the dangling-edge failure (`'Nodes not present in the Graph!'`). -/
def isDanglingErr : Except PErr (Graph × Int) → Bool
  | Except.error (PErr.graphErr GErr.nodesNotPresent) => true
  | _ => false

/-- Classifier: fuel exhaustion of the bounded loop model (i.e. the modelled
while loop would iterate longer than the group-marker count allows). -/
def isFuelOutErr : Except PErr (Graph × Int) → Bool
  | Except.error PErr.fuelOut => true
  | _ => false

/-- Classifier: the `InvalidInputError` of `graph.py`. -/
def isInvalidInputErr : Except PErr (Graph × Int) → Bool
  | Except.error PErr.invalidInput => true
  | _ => false

/-- Classifier: a successful evaluation. -/
def isOkResult : Except PErr (Graph × Int) → Bool
  | Except.ok _ => true
  | _ => false

/-- Classifier on graph operations: the dangling-edge `ValueError`. -/
def isNodesNotPresentErr : Except GErr Graph → Bool
  | Except.error GErr.nodesNotPresent => true
  | _ => false

/-- Classifier on graph operations: success. -/
def isOkGraph : Except GErr Graph → Bool
  | Except.ok _ => true
  | _ => false

/-- All stored vertices hold pairwise distinct values. -/
def distinctValues (g : Graph) : Prop :=
  g.nodes.Pairwise (fun x y => x.value ≠ y.value)

/-- Every stored vertex is a key of the adjacency dict (the invariant that
`add_node` establishes and all Graph operations preserve). -/
def GraphInv (g : Graph) : Prop :=
  ∀ n ∈ g.nodes, ∃ ds, lookupEdges g.edges n.nid = some ds

/-! ### Width-growth arithmetic -/

/-- With enough fuel the loop stops only once the magnitude fits. -/
theorem growBitsF_lt : ∀ (f m bits : Nat), 0 < bits → m < f + bits →
    m < 2 ^ growBitsF f m bits := by
  intro f
  induction f with
  | zero =>
    intro m bits hb hm
    simp only [growBitsF]
    exact lt_trans (by omega) (Nat.lt_two_pow bits)
  | succ f ih =>
    intro m bits hb hm
    simp only [growBitsF]
    by_cases h : m < 2 ^ bits
    · simp only [h, if_true]
    · simp only [h, if_false]
      exact ih m (bits * 2) (by omega) (by omega)

/-- The loop only ever doubles the starting width. -/
theorem growBitsF_shape : ∀ (f m bits : Nat), ∃ j, growBitsF f m bits = bits * 2 ^ j := by
  intro f
  induction f with
  | zero => intro m bits; exact ⟨0, by simp [growBitsF]⟩
  | succ f ih =>
    intro m bits
    simp only [growBitsF]
    by_cases h : m < 2 ^ bits
    · exact ⟨0, by simp [h]⟩
    · obtain ⟨j, hj⟩ := ih m (bits * 2)
      exact ⟨j + 1, by simp only [h, if_false]; rw [hj]; ring⟩

/-- The loop stops at the first doubled width that fits. -/
theorem growBitsF_min : ∀ (f m bits k : Nat), m < 2 ^ (bits * 2 ^ k) →
    growBitsF f m bits ≤ bits * 2 ^ k := by
  intro f
  induction f with
  | zero =>
    intro m bits k _
    simp only [growBitsF]
    have h1 : 1 ≤ 2 ^ k := Nat.one_le_two_pow
    calc bits = bits * 1 := by omega
    _ ≤ bits * 2 ^ k := Nat.mul_le_mul_left bits h1
  | succ f ih =>
    intro m bits k hk
    simp only [growBitsF]
    by_cases h : m < 2 ^ bits
    · simp only [h, if_true]
      have h1 : 1 ≤ 2 ^ k := Nat.one_le_two_pow
      calc bits = bits * 1 := by omega
      _ ≤ bits * 2 ^ k := Nat.mul_le_mul_left bits h1
    · simp only [h, if_false]
      match k with
      | 0 => exact absurd (by simpa using hk) h
      | k + 1 =>
        have hk' : m < 2 ^ (bits * 2 * 2 ^ k) := by
          have : bits * 2 * 2 ^ k = bits * 2 ^ (k + 1) := by ring
          rw [this]; exact hk
        have := ih m (bits * 2) k hk'
        calc growBitsF f m (bits * 2) ≤ bits * 2 * 2 ^ k := this
        _ = bits * 2 ^ (k + 1) := by ring

/-- The magnitude always fits under the chosen width. -/
theorem growBits_gt (m : Nat) : m < 2 ^ growBits m :=
  growBitsF_lt (m + 1) m 4 (by omega) (by omega)

/-- The width computed by the code's doubling loop is exactly the smallest
width of the form `4 * 2 ^ k` whose power of two exceeds the magnitude — the
width described by the specification. -/
theorem growBits_eq_wSpec (m : Nat) : growBits m = wSpec m := by
  apply le_antisymm
  · exact growBitsF_min (m + 1) m 4 (Nat.find (wSpec_exists m)) (Nat.find_spec (wSpec_exists m))
  · obtain ⟨j, hj⟩ := growBitsF_shape (m + 1) m 4
    have hfit : m < 2 ^ (4 * 2 ^ j) := by rw [← hj]; exact growBits_gt m
    have hle : Nat.find (wSpec_exists m) ≤ j := Nat.find_min' (wSpec_exists m) hfit
    unfold wSpec
    have hg : growBits m = 4 * 2 ^ j := hj
    rw [hg]
    exact Nat.mul_le_mul_left 4 (Nat.pow_le_pow_right (by omega) hle)

/-- The gate's output value is strictly positive. -/
theorem nandValue_pos (a b : Int) : 0 < nandValue a b := by
  unfold nandValue
  have h := growBits_gt (pyNot (pyLand a b)).natAbs
  have h2 : ((pyNot (pyLand a b)).natAbs : Int) < (2 : Int) ^ growBits (pyNot (pyLand a b)).natAbs := by
    exact_mod_cast h
  simp only []
  linarith

/-! ### Counting `!(` markers -/

/-- Unfolding `countBP` one character at a time. -/
theorem countBP_cons (a : Char) (l : List Char) :
    countBP (a :: l) = bpJoin (some a) l.head? + countBP l := by
  cases l with
  | nil => simp [countBP, bpJoin]
  | cons b t => simp [countBP, bpJoin]

/-- `bpJoin` vanishes without a left character. -/
theorem bpJoin_none_left (x : Option Char) : bpJoin none x = 0 := by
  cases x <;> rfl

/-- Marker count of a concatenation: both sides plus the seam. -/
theorem countBP_append : ∀ (u v : List Char),
    countBP (u ++ v) = countBP u + bpJoin u.getLast? v.head? + countBP v := by
  intro u
  induction u with
  | nil => intro v; simp [countBP, bpJoin_none_left]
  | cons a u ih =>
    intro v
    cases u with
    | nil =>
      simp only [List.cons_append, List.nil_append, countBP_cons, countBP]
      simp [List.getLast?]
    | cons b u' =>
      have e1 : countBP ((a :: b :: u') ++ v) = bpPair a b + countBP ((b :: u') ++ v) := rfl
      have e2 : countBP (a :: b :: u') = bpPair a b + countBP (b :: u') := rfl
      rw [e1, e2, ih, List.getLast?_cons_cons]
      omega

/-- A digit is not `!`. -/
theorem bpPair_left_digit (a b : Char) (h : a.isDigit = true) : bpPair a b = 0 := by
  unfold bpPair
  split
  · next hc =>
    obtain ⟨hc1, _⟩ := hc
    subst hc1
    exact absurd h (by decide)
  · rfl

/-- A digit is not `(`. -/
theorem bpPair_right_digit (a b : Char) (h : b.isDigit = true) : bpPair a b = 0 := by
  unfold bpPair
  split
  · next hc =>
    obtain ⟨_, hc2⟩ := hc
    subst hc2
    exact absurd h (by decide)
  · rfl

/-- No seam marker when the right side starts with a digit or is empty. -/
theorem bpJoin_right_digit (x : Option Char) (y : Option Char)
    (h : ∀ d, y = some d → d.isDigit = true) : bpJoin x y = 0 := by
  cases x with
  | none => exact bpJoin_none_left y
  | some a =>
    cases y with
    | none => rfl
    | some b => exact bpPair_right_digit a b (h b rfl)

/-- No seam marker when the left side ends with a digit or is empty. -/
theorem bpJoin_left_digit (x : Option Char) (y : Option Char)
    (h : ∀ d, x = some d → d.isDigit = true) : bpJoin x y = 0 := by
  cases x with
  | none => exact bpJoin_none_left y
  | some a =>
    cases y with
    | none => rfl
    | some b => exact bpPair_left_digit a b (h a rfl)

/-- An all-digit string contains no marker. -/
theorem countBP_digits : ∀ (l : List Char), (∀ c ∈ l, c.isDigit = true) →
    countBP l = 0 := by
  intro l
  induction l with
  | nil => intro _; rfl
  | cons a t ih =>
    intro h
    rw [countBP_cons, ih (fun c hc => h c (List.mem_cons_of_mem a hc))]
    have : bpJoin (some a) t.head? = 0 :=
      bpJoin_left_digit _ _ (fun d hd => by cases hd; exact h a (List.mem_cons_self a t))
    omega

/-- Members of `getLast?`. -/
theorem getLast?_mem : ∀ (l : List Char) (d : Char), l.getLast? = some d → d ∈ l := by
  intro l
  induction l with
  | nil => intro d h; cases h
  | cons a t ih =>
    intro d h
    cases t with
    | nil =>
      simp [List.getLast?] at h
      subst h; exact List.mem_cons_self a []
    | cons b t' =>
      rw [List.getLast?_cons_cons] at h
      exact List.mem_cons_of_mem a (ih d h)

/-! ### Prefix and substring facts -/

/-- A successful prefix test decomposes the string. -/
theorem isPre_append : ∀ (m s : List Char), isPre m s = true → s = m ++ s.drop m.length := by
  intro m
  induction m with
  | nil => intro s _; simp
  | cons a as ih =>
    intro s h
    cases s with
    | nil => simp [isPre] at h
    | cons b bs =>
      simp only [isPre, Bool.and_eq_true, beq_iff_eq] at h
      obtain ⟨hab, hpre⟩ := h
      subst hab
      have := ih bs hpre
      simp only [List.cons_append, List.length_cons, List.drop_succ_cons]
      exact congrArg (a :: ·) this

/-- A string is a prefix of itself followed by anything. -/
theorem isPre_of_append : ∀ (m r : List Char), isPre m (m ++ r) = true := by
  intro m
  induction m with
  | nil => intro r; rfl
  | cons a as ih => intro r; simp [isPre, ih]

/-- A substring has no more markers than the whole. -/
theorem occursIn_countBP_le : ∀ (s m : List Char), occursIn m s = true →
    countBP m ≤ countBP s := by
  intro s
  induction s with
  | nil =>
    intro m h
    cases m with
    | nil => exact le_refl 0
    | cons a as => simp [occursIn, isPre] at h
  | cons c rest ih =>
    intro m h
    simp only [occursIn, Bool.or_eq_true] at h
    rcases h with h | h
    · rw [isPre_append m (c :: rest) h, countBP_append]
      omega
    · have := ih m h
      rw [countBP_cons]
      omega

/-! ### Decimal digits -/

/-- `digitChar` produces only digits. -/
theorem digitChar_isDigit (k : Nat) : (digitChar k).isDigit = true := by
  unfold digitChar
  split <;> decide

/-- All characters produced by the digit loop are digits. -/
theorem natDigitsF_digits : ∀ (f n : Nat) (acc : List Char),
    (∀ c ∈ acc, c.isDigit = true) → ∀ c ∈ natDigitsF f n acc, c.isDigit = true := by
  intro f
  induction f with
  | zero => intro n acc h; exact h
  | succ f ih =>
    intro n acc h c hc
    simp only [natDigitsF] at hc
    by_cases hn : n < 10
    · simp only [hn, if_true] at hc
      rcases List.mem_cons.mp hc with h1 | h1
      · subst h1; exact digitChar_isDigit _
      · exact h c h1
    · simp only [hn, if_false] at hc
      refine ih (n / 10) (digitChar (n % 10) :: acc) ?_ c hc
      intro d hd
      rcases List.mem_cons.mp hd with h1 | h1
      · subst h1; exact digitChar_isDigit _
      · exact h d h1

/-- The digit loop never empties a nonempty accumulator. -/
theorem natDigitsF_ne_nil_acc : ∀ (f n : Nat) (acc : List Char), acc ≠ [] →
    natDigitsF f n acc ≠ [] := by
  intro f
  induction f with
  | zero => intro n acc h; exact h
  | succ f ih =>
    intro n acc h
    simp only [natDigitsF]
    by_cases hn : n < 10
    · simp [hn]
    · simp only [hn, if_false]
      exact ih (n / 10) _ (by simp)

/-- The decimal rendering is a nonempty digit string. -/
theorem natDigits_spec (n : Nat) :
    natDigits n ≠ [] ∧ ∀ c ∈ natDigits n, c.isDigit = true := by
  constructor
  · unfold natDigits
    simp only [natDigitsF]
    by_cases hn : n < 10
    · simp [hn]
    · simp only [hn, if_false]
      exact natDigitsF_ne_nil_acc n (n / 10) _ (by simp)
  · exact natDigitsF_digits (n + 1) n [] (by simp)

/-- `str` of a positive value is a nonempty digit string. -/
theorem pyStr_pos (v : Int) (h : 0 < v) :
    pyStr v ≠ [] ∧ ∀ c ∈ pyStr v, c.isDigit = true := by
  unfold pyStr
  have : ¬(v < 0) := by omega
  simp only [this, if_false]
  exact natDigits_spec v.toNat

/-! ### The substitution strictly removes group markers -/

/-- The head of a replacement result is the original head or the head of the
(nonempty) replacement text. -/
theorem replaceAllF_head (m t : List Char) (ht : t ≠ []) (f : Nat) (s : List Char) :
    (replaceAllF m t f s).head? = s.head? ∨ (replaceAllF m t f s).head? = t.head? := by
  cases f with
  | zero => exact Or.inl rfl
  | succ f =>
    simp only [replaceAllF]
    by_cases hp : isPre m s = true
    · rw [if_pos hp]
      cases t with
      | nil => exact absurd rfl ht
      | cons d t' => exact Or.inr rfl
    · rw [if_neg hp]
      cases s with
      | nil => exact Or.inl rfl
      | cons c rest => exact Or.inl rfl

/-- Replacing by an all-digit text never adds `!(` markers. -/
theorem replaceAllF_le (m t : List Char) (ht : t ≠ [])
    (hd : ∀ c ∈ t, c.isDigit = true) :
    ∀ (f : Nat) (s : List Char), countBP (replaceAllF m t f s) ≤ countBP s := by
  intro f
  induction f with
  | zero => intro s; exact le_refl _
  | succ f ih =>
    intro s
    simp only [replaceAllF]
    by_cases hp : isPre m s = true
    · rw [if_pos hp]
      have hsplit := isPre_append m s hp
      rw [countBP_append t (replaceAllF m t f (s.drop m.length))]
      have h0 : countBP t = 0 := countBP_digits t hd
      have hj : bpJoin t.getLast? (replaceAllF m t f (s.drop m.length)).head? = 0 :=
        bpJoin_left_digit _ _ (fun d hdd => hd d (getLast?_mem t d hdd))
      have hrec := ih (s.drop m.length)
      have hs2 : countBP s =
          countBP m + bpJoin m.getLast? (s.drop m.length).head? + countBP (s.drop m.length) := by
        conv_lhs => rw [hsplit]
        exact countBP_append m (s.drop m.length)
      omega
    · rw [if_neg hp]
      cases s with
      | nil => exact le_refl _
      | cons c rest =>
        rw [countBP_cons c (replaceAllF m t f rest), countBP_cons c rest]
        have hrec := ih rest
        rcases replaceAllF_head m t ht f rest with hh | hh
        · rw [hh]; omega
        · rw [hh]
          have hz : bpJoin (some c) t.head? = 0 := by
            apply bpJoin_right_digit
            intro d hdd
            cases t with
            | nil => cases hdd
            | cons e t' =>
              simp only [List.head?] at hdd
              injection hdd with hed
              subst hed
              exact hd e (List.mem_cons_self e t')
          rw [hz]
          omega

/-- Replacing an occurring NAND-group text by all-digit text strictly
decreases the `!(` marker count. -/
theorem replaceAllF_lt (m t mt : List Char) (hm : m = '!' :: '(' :: mt)
    (ht : t ≠ []) (hd : ∀ c ∈ t, c.isDigit = true) :
    ∀ (f : Nat) (s : List Char), s.length ≤ f → occursIn m s = true →
      countBP (replaceAllF m t f s) < countBP s := by
  have hm1 : 1 ≤ countBP m := by
    subst hm
    have he : countBP ('!' :: '(' :: mt) = bpPair '!' '(' + countBP ('(' :: mt) := rfl
    have hb : bpPair '!' '(' = 1 := by decide
    omega
  intro f
  induction f with
  | zero =>
    intro s hlen hocc
    have hnil : s = [] := List.eq_nil_of_length_eq_zero (by omega)
    subst hnil
    subst hm
    simp [occursIn, isPre] at hocc
  | succ f ih =>
    intro s hlen hocc
    simp only [replaceAllF]
    by_cases hp : isPre m s = true
    · rw [if_pos hp]
      have hsplit := isPre_append m s hp
      rw [countBP_append t (replaceAllF m t f (s.drop m.length))]
      have h0 : countBP t = 0 := countBP_digits t hd
      have hj : bpJoin t.getLast? (replaceAllF m t f (s.drop m.length)).head? = 0 :=
        bpJoin_left_digit _ _ (fun d hdd => hd d (getLast?_mem t d hdd))
      have hrec := replaceAllF_le m t ht hd f (s.drop m.length)
      have hs2 : countBP s =
          countBP m + bpJoin m.getLast? (s.drop m.length).head? + countBP (s.drop m.length) := by
        conv_lhs => rw [hsplit]
        exact countBP_append m (s.drop m.length)
      omega
    · rw [if_neg hp]
      cases s with
      | nil =>
        subst hm
        simp [occursIn, isPre] at hocc
      | cons c rest =>
        have hocc' : occursIn m rest = true := by
          have he : occursIn m (c :: rest) = (isPre m (c :: rest) || occursIn m rest) := rfl
          rw [he] at hocc
          simp only [Bool.or_eq_true] at hocc
          rcases hocc with h | h
          · exact absurd h hp
          · exact h
        have hlen' : rest.length ≤ f := by
          simp only [List.length_cons] at hlen
          omega
        have hrec := ih rest hlen' hocc'
        rw [countBP_cons c (replaceAllF m t f rest), countBP_cons c rest]
        rcases replaceAllF_head m t ht f rest with hh | hh
        · rw [hh]; omega
        · rw [hh]
          have hz : bpJoin (some c) t.head? = 0 := by
            apply bpJoin_right_digit
            intro d hdd
            cases t with
            | nil => cases hdd
            | cons e t' =>
              simp only [List.head?] at hdd
              injection hdd with hed
              subst hed
              exact hd e (List.mem_cons_self e t')
          rw [hz]
          omega

/-- One loop iteration's text substitution strictly decreases the number of
unresolved `!(` group markers. -/
theorem substitute_lt (buf : List Char) (nm : NMatch) (out : Int)
    (hocc : occursIn (nmStr nm) buf = true) (hpos : 0 < out) :
    countBP (substitute buf nm out) < countBP buf := by
  obtain ⟨htne, htd⟩ := pyStr_pos out hpos
  have he : substitute buf nm out = replaceAllF (nmStr nm) (pyStr out) buf.length buf := rfl
  rw [he]
  exact replaceAllF_lt (nmStr nm) (pyStr out) (nm.a ++ nm.sep :: (nm.b ++ [')'])) rfl
    htne htd buf.length buf (le_refl _) hocc

/-! ### The regex matcher -/

/-- A successful close test exposes the `)` at the offset. -/
theorem closeAt_drop (s2 : List Char) (k : Nat) (h : closeAt s2 k = true) :
    ∃ r, s2.drop k = ')' :: r := by
  unfold closeAt at h
  cases hd : s2.drop k with
  | nil => rw [hd] at h; cases h
  | cons c r =>
    rw [hd] at h
    have h2 : c = ')' := eq_of_beq h
    subst h2
    exact ⟨r, rfl⟩

/-- The second-group backtracker returns a length bounded by its start and a
position where `)` follows. -/
theorem tryB_spec (s2 : List Char) : ∀ (k bl : Nat), tryB s2 k = some bl →
    bl ≤ k ∧ closeAt s2 bl = true := by
  intro k
  induction k with
  | zero =>
    intro bl h
    unfold tryB at h
    by_cases hc : closeAt s2 0 = true
    · rw [if_pos hc] at h
      injection h with h
      subst h
      exact ⟨le_refl 0, hc⟩
    · rw [if_neg hc] at h
      cases h
  | succ k ih =>
    intro bl h
    unfold tryB at h
    by_cases hc : closeAt s2 (k + 1) = true
    · rw [if_pos hc] at h
      injection h with h
      subst h
      exact ⟨le_refl _, hc⟩
    · rw [if_neg hc] at h
      obtain ⟨h1, h2⟩ := ih bl h
      exact ⟨by omega, h2⟩

/-- The greedy second group succeeds immediately when `)` follows it. -/
theorem tryB_at (s2 : List Char) (k : Nat) (h : closeAt s2 k = true) :
    tryB s2 k = some k := by
  cases k with
  | zero => unfold tryB; rw [if_pos h]
  | succ k => unfold tryB; rw [if_pos h]

/-- Inversion of one first-group attempt. -/
theorem tryAAt_spec (rest0 : List Char) (k al bl : Nat)
    (h : tryAAt rest0 k = some (al, bl)) :
    al = k ∧ ∃ c s2, rest0.drop k = c :: s2 ∧ (c == '\n') = false ∧
      bl ≤ digitRun s2 ∧ closeAt s2 bl = true := by
  unfold tryAAt at h
  cases hd : rest0.drop k with
  | nil => rw [hd] at h; cases h
  | cons c s2 =>
    rw [hd] at h
    have h' : (if c = '\n' then none
        else
          match tryB s2 (digitRun s2) with
          | some bl => some (k, bl)
          | none => none) = some (al, bl) := h
    by_cases hc : c = '\n'
    · rw [if_pos hc] at h'; cases h'
    · rw [if_neg hc] at h'
      cases htb : tryB s2 (digitRun s2) with
      | none => rw [htb] at h'; cases h'
      | some bl' =>
        rw [htb] at h'
        injection h' with h'
        injection h' with ha hb
        subst ha
        subst hb
        obtain ⟨h1, h2⟩ := tryB_spec s2 (digitRun s2) bl' htb
        exact ⟨rfl, c, s2, rfl, beq_eq_false_iff_ne.mpr hc, h1, h2⟩

/-- Inversion of the first-group backtracker. -/
theorem tryA_spec (rest0 : List Char) : ∀ (k al bl : Nat),
    tryA rest0 k = some (al, bl) → al ≤ k ∧ tryAAt rest0 al = some (al, bl) := by
  intro k
  induction k with
  | zero =>
    intro al bl h
    unfold tryA at h
    obtain ⟨h1, -⟩ := tryAAt_spec rest0 0 al bl h
    subst h1
    exact ⟨le_refl _, h⟩
  | succ k ih =>
    intro al bl h
    unfold tryA at h
    cases ht : tryAAt rest0 (k + 1) with
    | some r =>
      rw [ht] at h
      injection h with h
      subst h
      obtain ⟨h1, -⟩ := tryAAt_spec rest0 (k + 1) al bl ht
      subst h1
      exact ⟨le_refl _, ht⟩
    | none =>
      rw [ht] at h
      obtain ⟨h1, h2⟩ := ih al bl h
      exact ⟨by omega, h2⟩

/-- Within the greedy digit run every taken character is a digit. -/
theorem digitRun_take : ∀ (s : List Char) (j : Nat), j ≤ digitRun s →
    ∀ c ∈ s.take j, c.isDigit = true := by
  intro s
  induction s with
  | nil =>
    intro j _ c hc
    simp at hc
  | cons a rest ih =>
    intro j hj c hc
    by_cases ha : a.isDigit = true
    · cases j with
      | zero => simp at hc
      | succ j' =>
        rw [List.take_succ_cons] at hc
        rcases List.mem_cons.mp hc with h | h
        · subst h; exact ha
        · refine ih j' ?_ c h
          unfold digitRun at hj
          rw [if_pos ha] at hj
          omega
    · unfold digitRun at hj
      rw [if_neg ha] at hj
      have hz : j = 0 := by omega
      subst hz
      simp at hc

/-- Soundness of the anchored matcher: every match is an initial segment of
the text of the shape `!(` digits, any non-newline character, digits `)`. -/
theorem matchAt_sound (s : List Char) (nm : NMatch) (h : matchAt s = some nm) :
    (∃ rest, s = nmStr nm ++ rest) ∧ (∀ c ∈ nm.a, c.isDigit = true) ∧
      (∀ c ∈ nm.b, c.isDigit = true) ∧ (nm.sep == '\n') = false := by
  cases s with
  | nil => exact Option.noConfusion h
  | cons c1 s1 =>
    cases s1 with
    | nil => exact Option.noConfusion h
    | cons c2 rest0 =>
      have h' : (if c1 = '!' ∧ c2 = '(' then matchCore rest0 else none) = some nm := h
      by_cases hc : c1 = '!' ∧ c2 = '('
      case neg =>
        rw [if_neg hc] at h'
        exact Option.noConfusion h'
      case pos =>
        rw [if_pos hc] at h'
        obtain ⟨hc1, hc2⟩ := hc
        subst hc1
        subst hc2
        unfold matchCore at h'
        cases hta : tryA rest0 (digitRun rest0) with
        | none =>
          rw [hta] at h'
          exact Option.noConfusion h'
        | some albl =>
          rw [hta] at h'
          obtain ⟨al, bl⟩ := albl
          obtain ⟨hle, hAt⟩ := tryA_spec rest0 (digitRun rest0) al bl hta
          obtain ⟨-, c, s2, hdrop, hnl, hble, hclose⟩ := tryAAt_spec rest0 al al bl hAt
          have h'' : (match rest0.drop al with
              | c :: s2 => some (⟨rest0.take al, c, s2.take bl⟩ : NMatch)
              | [] => none) = some nm := h'
          rw [hdrop] at h''
          injection h'' with h''
          subst h''
          obtain ⟨r, hr⟩ := closeAt_drop s2 bl hclose
          have h1 : rest0 = rest0.take al ++ (c :: s2) := by
            rw [← hdrop]
            exact (List.take_append_drop al rest0).symm
          have h2 : s2 = s2.take bl ++ (')' :: r) := by
            rw [← hr]
            exact (List.take_append_drop bl s2).symm
          refine ⟨⟨r, ?_⟩, digitRun_take rest0 al hle, digitRun_take s2 bl hble, hnl⟩
          simp only [nmStr]
          conv_lhs => rw [h1, h2]
          simp

/-- Soundness of the search: a found match occurs in the buffer. -/
theorem searchNand_sound : ∀ (s : List Char) (nm : NMatch),
    searchNand s = some nm → occursIn (nmStr nm) s = true := by
  intro s
  induction s with
  | nil => intro nm h; exact Option.noConfusion h
  | cons c rest ih =>
    intro nm h
    unfold searchNand at h
    cases hm : matchAt (c :: rest) with
    | some nm' =>
      rw [hm] at h
      injection h with h
      subst h
      obtain ⟨⟨r, hr⟩, -, -, -⟩ := matchAt_sound (c :: rest) nm' hm
      have hpre : isPre (nmStr nm') (c :: rest) = true := by
        rw [hr]
        exact isPre_of_append _ r
      unfold occursIn
      rw [hpre]
      simp
    | none =>
      rw [hm] at h
      have hrec := ih nm h
      unfold occursIn
      rw [hrec]
      simp

/-- The matched group text starts with `!(`, so it carries a group marker. -/
theorem countBP_nmStr_pos (nm : NMatch) : 1 ≤ countBP (nmStr nm) := by
  have he : countBP (nmStr nm) =
      bpPair '!' '(' + countBP ('(' :: (nm.a ++ nm.sep :: (nm.b ++ [')']))) := rfl
  have hb : bpPair '!' '(' = 1 := by decide
  omega

/-! ### Graph operation characterizations -/

/-- `add_node` with `ignore_errors` never fails. -/
theorem add_node_true (g : Graph) (n : Node) :
    add_node g n true = Except.ok (addNodeResult g n) := by
  unfold add_node addNodeResult
  by_cases h : has_node g n = true
  · rw [if_pos h, if_pos h]
    simp
  · rw [if_neg h, if_neg h]

/-- The node returned by `get_node` is a stored vertex. -/
theorem get_node_ok_mem (g : Graph) (v : Int) (n : Node) (h : get_node g v = Except.ok n) :
    n ∈ g.nodes := by
  unfold get_node at h
  cases hf : g.nodes.find? (fun x => x.value == v) with
  | some x =>
    rw [hf] at h
    injection h with h
    subst h
    exact List.mem_of_find?_eq_some hf
  | none => rw [hf] at h; cases h

/-- The node returned by `get_node` holds the requested value. -/
theorem get_node_ok_value (g : Graph) (v : Int) (n : Node) (h : get_node g v = Except.ok n) :
    n.value = v := by
  unfold get_node at h
  cases hf : g.nodes.find? (fun x => x.value == v) with
  | some x =>
    rw [hf] at h
    injection h with h
    subst h
    have hp := List.find?_some hf
    simp only [beq_iff_eq] at hp
    exact hp
  | none => rw [hf] at h; cases h

/-- A failed lookup means no stored vertex holds the value. -/
theorem get_node_err_has (g : Graph) (v : Int) (e : GErr)
    (h : get_node g v = Except.error e) (x : Node) (hx : x.value = v) :
    has_node g x = false := by
  unfold get_node at h
  cases hf : g.nodes.find? (fun n => n.value == v) with
  | some n' => rw [hf] at h; cases h
  | none =>
    have hall := List.find?_eq_none.mp hf
    unfold has_node
    rw [List.any_eq_false]
    intro i hi
    have hne := hall i hi
    rw [hx]
    exact hne

/-- The resolved operand node holds the parsed value. -/
theorem resolveNode_value (g : Graph) (v : Int) (fresh : Nat) :
    (resolveNode g v fresh).value = v := by
  unfold resolveNode
  cases hg : get_node g v with
  | ok n => exact get_node_ok_value g v n hg
  | error e => rfl

/-- Membership survives appending vertices. -/
theorem has_node_append (ns l : List Node) (es es' : List (Nat × List Node)) (x : Node)
    (h : has_node ⟨ns, es⟩ x = true) : has_node ⟨ns ++ l, es'⟩ x = true := by
  unfold has_node at h ⊢
  simp only [List.any_append]
  simp only at h
  rw [h]
  simp

/-- A vertex just appended is present. -/
theorem has_node_self_append (ns : List Node) (es : List (Nat × List Node)) (n : Node) :
    has_node ⟨ns ++ [n], es⟩ n = true := by
  unfold has_node
  simp [List.any_append]

/-- The inserted node is present after `add_node` (either it was already
there by value, or it was appended). -/
theorem addNodeResult_has_self (g : Graph) (n : Node) :
    has_node (addNodeResult g n) n = true := by
  unfold addNodeResult
  by_cases h : has_node g n = true
  · rw [if_pos h]; exact h
  · rw [if_neg h]; exact has_node_self_append g.nodes _ n

/-- Present vertices stay present across `add_node`. -/
theorem addNodeResult_has_mono (g : Graph) (n x : Node) (h : has_node g x = true) :
    has_node (addNodeResult g n) x = true := by
  unfold addNodeResult
  by_cases hh : has_node g n = true
  · rw [if_pos hh]; exact h
  · rw [if_neg hh]; exact has_node_append g.nodes [n] g.edges _ x h

/-- Lookup results survive appending fresh dict entries. -/
theorem lookupEdges_append_some (es l : List (Nat × List Node)) (key : Nat) (ds : List Node)
    (h : lookupEdges es key = some ds) : lookupEdges (es ++ l) key = some ds := by
  induction es with
  | nil => cases h
  | cons p rest ih =>
    obtain ⟨k, d⟩ := p
    simp only [List.cons_append]
    unfold lookupEdges at h ⊢
    by_cases hk : k = key
    · rw [if_pos hk] at h ⊢; exact h
    · rw [if_neg hk] at h ⊢; exact ih h

/-- Appending an entry for a key makes that key present. -/
theorem lookupEdges_append_self (es : List (Nat × List Node)) (k : Nat) (v : List Node) :
    ∃ ds, lookupEdges (es ++ [(k, v)]) k = some ds := by
  induction es with
  | nil =>
    refine ⟨v, ?_⟩
    simp only [List.nil_append]
    unfold lookupEdges
    rw [if_pos rfl]
  | cons p rest ih =>
    obtain ⟨k', d⟩ := p
    simp only [List.cons_append]
    unfold lookupEdges
    by_cases hk : k' = k
    · rw [if_pos hk]; exact ⟨d, rfl⟩
    · rw [if_neg hk]; exact ih

/-- Updating a destination set changes no key's presence. -/
theorem lookupEdges_update_isSome (es : List (Nat × List Node)) (k : Nat) (v : List Node)
    (key : Nat) :
    (lookupEdges (updateEdges es k v) key).isSome = (lookupEdges es key).isSome := by
  induction es with
  | nil => rfl
  | cons p rest ih =>
    obtain ⟨k', d⟩ := p
    unfold updateEdges
    by_cases hk : k' = k
    · rw [if_pos hk]
      unfold lookupEdges
      by_cases hkey : k' = key
      · rw [if_pos hkey, if_pos hkey]; rfl
      · rw [if_neg hkey, if_neg hkey]
    · rw [if_neg hk]
      unfold lookupEdges
      by_cases hkey : k' = key
      · rw [if_pos hkey, if_pos hkey]
      · rw [if_neg hkey, if_neg hkey]; exact ih

/-- Updating an existing key stores the new destination set. -/
theorem lookupEdges_update_self (es : List (Nat × List Node)) (k : Nat) (v ds : List Node)
    (h : lookupEdges es k = some ds) : lookupEdges (updateEdges es k v) k = some v := by
  induction es with
  | nil => cases h
  | cons p rest ih =>
    obtain ⟨k', d⟩ := p
    unfold lookupEdges at h
    unfold updateEdges
    by_cases hk : k' = k
    · rw [if_pos hk]
      unfold lookupEdges
      rw [if_pos hk]
    · rw [if_neg hk]
      unfold lookupEdges
      rw [if_neg hk]
      rw [if_neg hk] at h
      exact ih h

/-- `add_node` (ignoring duplicates) preserves the key invariant. -/
theorem graphInv_addNodeResult (g : Graph) (n : Node) (h : GraphInv g) :
    GraphInv (addNodeResult g n) := by
  unfold addNodeResult
  by_cases hh : has_node g n = true
  · rw [if_pos hh]; exact h
  · rw [if_neg hh]
    intro x hx
    simp only at hx
    rcases List.mem_append.mp hx with h1 | h1
    · obtain ⟨ds, hds⟩ := h x h1
      exact ⟨ds, lookupEdges_append_some _ _ _ _ hds⟩
    · have hxn : x = n := by simpa using h1
      subst hxn
      exact lookupEdges_append_self g.edges x.nid []

/-- `add_node` (ignoring duplicates) preserves key presence. -/
theorem lookupEdges_addNodeResult (g : Graph) (n : Node) (key : Nat) (ds : List Node)
    (h : lookupEdges g.edges key = some ds) :
    ∃ ds', lookupEdges (addNodeResult g n).edges key = some ds' := by
  unfold addNodeResult
  by_cases hh : has_node g n = true
  · rw [if_pos hh]; exact ⟨ds, h⟩
  · rw [if_neg hh]; exact ⟨ds, lookupEdges_append_some _ _ _ _ h⟩

/-- When both endpoint values are present and `input_a` is an adjacency key,
`add_edge` succeeds and preserves the key invariant. -/
theorem add_edge_ok (g : Graph) (e : NAND) (h1 : has_node g e.input_a = true)
    (h2 : has_node g e.input_b = true) (hds : ∃ ds, lookupEdges g.edges e.input_a.nid = some ds)
    (hInv : GraphInv g) :
    ∃ g3, add_edge g e = Except.ok g3 ∧ GraphInv g3 := by
  obtain ⟨ds, hds⟩ := hds
  simp only [add_edge, hds]
  split
  · next hcond =>
    exfalso
    rw [h1, h2] at hcond
    exact absurd hcond (by decide)
  · next hcond =>
    by_cases hmem : e.input_b ∈ ds
    · rw [if_pos hmem]
      exact ⟨g, rfl, hInv⟩
    · rw [if_neg hmem]
      refine ⟨_, rfl, ?_⟩
      intro x hx
      simp only at hx
      obtain ⟨dsx, hdx⟩ := hInv x hx
      have hiso := lookupEdges_update_isSome g.edges e.input_a.nid (ds ++ [e.input_b]) x.nid
      rw [hdx] at hiso
      simp only [Option.isSome_some] at hiso
      exact Option.isSome_iff_exists.mp hiso

/-- One reduction step either propagates an `int()` `ValueError` or succeeds,
advancing the id counter by three, producing a positive gate output value and
preserving the graph invariant. -/
theorem reduceStep_cases (g : Graph) (nid : Nat) (nm : NMatch) (hInv : GraphInv g) :
    reduceStep g nid nm = Except.error PErr.valueError ∨
    ∃ g4 out, reduceStep g nid nm = Except.ok (g4, nid + 3, out) ∧ GraphInv g4 ∧ 0 < out := by
  cases ha : pyInt nm.a with
  | none =>
    left
    cases hbb : pyInt nm.b with
    | none =>
      show reduceStep g nid nm = Except.error PErr.valueError
      unfold reduceStep
      rw [ha, hbb]
    | some v2 =>
      show reduceStep g nid nm = Except.error PErr.valueError
      unfold reduceStep
      rw [ha, hbb]
  | some v1 =>
    cases hb : pyInt nm.b with
    | none =>
      left
      show reduceStep g nid nm = Except.error PErr.valueError
      unfold reduceStep
      rw [ha, hb]
    | some v2 =>
      right
      have hval1 := resolveNode_value g v1 nid
      have hval2 := resolveNode_value g v2 (nid + 1)
      have hg1has : has_node (addNodeResult g (resolveNode g v1 nid)) (resolveNode g v1 nid) = true :=
        addNodeResult_has_self g _
      have hg2has1 : has_node
          (addNodeResult (addNodeResult g (resolveNode g v1 nid)) (resolveNode g v2 (nid + 1)))
          (resolveNode g v1 nid) = true :=
        addNodeResult_has_mono _ _ _ hg1has
      have hg2has2 : has_node
          (addNodeResult (addNodeResult g (resolveNode g v1 nid)) (resolveNode g v2 (nid + 1)))
          (resolveNode g v2 (nid + 1)) = true :=
        addNodeResult_has_self _ _
      have hInv1 : GraphInv (addNodeResult g (resolveNode g v1 nid)) :=
        graphInv_addNodeResult g _ hInv
      have hInv2 : GraphInv
          (addNodeResult (addNodeResult g (resolveNode g v1 nid)) (resolveNode g v2 (nid + 1))) :=
        graphInv_addNodeResult _ _ hInv1
      have hkey1 : ∃ ds, lookupEdges (addNodeResult g (resolveNode g v1 nid)).edges
          (resolveNode g v1 nid).nid = some ds := by
        unfold resolveNode
        cases hg : get_node g v1 with
        | ok n =>
          obtain ⟨ds0, hds0⟩ := hInv n (get_node_ok_mem g v1 n hg)
          exact lookupEdges_addNodeResult g n n.nid ds0 hds0
        | error e =>
          have hno : has_node g (⟨nid, v1⟩ : Node) = false :=
            get_node_err_has g v1 e hg ⟨nid, v1⟩ rfl
          unfold addNodeResult
          rw [if_neg (by rw [hno]; exact Bool.false_ne_true)]
          exact lookupEdges_append_self g.edges nid []
      have hkey2 : ∃ ds, lookupEdges
          (addNodeResult (addNodeResult g (resolveNode g v1 nid)) (resolveNode g v2 (nid + 1))).edges
          (resolveNode g v1 nid).nid = some ds := by
        obtain ⟨ds1, hds1⟩ := hkey1
        exact lookupEdges_addNodeResult _ _ _ ds1 hds1
      obtain ⟨g3, hedge, hInv3⟩ := add_edge_ok
        (addNodeResult (addNodeResult g (resolveNode g v1 nid)) (resolveNode g v2 (nid + 1)))
        ⟨resolveNode g v1 nid, resolveNode g v2 (nid + 1)⟩ hg2has1 hg2has2 hkey2 hInv2
      refine ⟨addNodeResult g3
          ⟨nid + 2, NAND.outputValue ⟨resolveNode g v1 nid, resolveNode g v2 (nid + 1)⟩⟩,
        NAND.outputValue ⟨resolveNode g v1 nid, resolveNode g v2 (nid + 1)⟩, ?_, ?_, ?_⟩
      · unfold reduceStep
        rw [ha, hb]
        simp only [add_node_true, hedge]
      · exact graphInv_addNodeResult g3 _ hInv3
      · exact nandValue_pos _ _

/-! ### Finalization and the loop -/

/-- Python `split` never returns an empty list of pieces. -/
theorem pySplit_ne_nil : ∀ (buf : List Char), pySplit buf ≠ [] := by
  intro buf
  induction buf with
  | nil => simp [pySplit]
  | cons c rest ih =>
    unfold pySplit
    by_cases hc : c = '.'
    · simp [hc]
    · simp only [hc, if_false]
      cases hr : pySplit rest with
      | nil => simp
      | cons h t => simp

/-- Parsing all pieces preserves the count. -/
theorem mapPyInt_length : ∀ (ps : List (List Char)) (l : List Int),
    mapPyInt ps = some l → l.length = ps.length := by
  intro ps
  induction ps with
  | nil =>
    intro l h
    injection h with h
    subst h
    rfl
  | cons p rest ih =>
    intro l h
    unfold mapPyInt at h
    cases hp : pyInt p with
    | none => rw [hp] at h; cases h
    | some v =>
      rw [hp] at h
      cases hm : mapPyInt rest with
      | none => rw [hm] at h; cases h
      | some vs =>
        rw [hm] at h
        injection h with h
        subst h
        simp [ih vs hm]

/-- Finalization only produces a result, the `InvalidInputError`, or an
`int()` `ValueError`. -/
theorem finalize_propagate (buf : List Char) (g : Graph) :
    isPropagatedOk (finalize buf g) = true := by
  unfold finalize
  cases hm : mapPyInt (pySplit buf) with
  | none => rfl
  | some output =>
    cases output with
    | nil =>
      exfalso
      have hlen := mapPyInt_length _ _ hm
      cases hps : pySplit buf with
      | nil => exact absurd hps (pySplit_ne_nil buf)
      | cons a b =>
        rw [hps] at hlen
        simp at hlen
    | cons o1 rest1 =>
      cases rest1 with
      | nil => rfl
      | cons o2 rest2 =>
        cases rest2 with
        | nil => rfl
        | cons o3 rest3 => rfl

/-- The empty graph satisfies the key invariant. -/
theorem graphInv_empty : GraphInv emptyGraph := by
  intro n hn
  simp [emptyGraph] at hn

/-- Master loop lemma: with fuel at least the group-marker count, the loop
only produces results, `InvalidInputError`, or `int()` `ValueError`s — never
a graph-layer error or fuel exhaustion. -/
theorem parseLoop_propagate : ∀ (fuel : Nat) (buf : List Char) (g : Graph) (nid : Nat),
    GraphInv g → countBP buf ≤ fuel → isPropagatedOk (parseLoop fuel buf g nid) = true := by
  intro fuel
  induction fuel with
  | zero =>
    intro buf g nid hInv hcnt
    unfold parseLoop
    cases hs : searchNand buf with
    | none => exact finalize_propagate buf g
    | some nm =>
      exfalso
      have hocc := searchNand_sound buf nm hs
      have hle := occursIn_countBP_le buf (nmStr nm) hocc
      have h1 := countBP_nmStr_pos nm
      omega
  | succ f ih =>
    intro buf g nid hInv hcnt
    unfold parseLoop
    cases hs : searchNand buf with
    | none => exact finalize_propagate buf g
    | some nm =>
      show isPropagatedOk
        (match reduceStep g nid nm with
          | Except.error e => Except.error e
          | Except.ok (g2, nid2, out) => parseLoop f (substitute buf nm out) g2 nid2) = true
      rcases reduceStep_cases g nid nm hInv with herr | ⟨g4, out, hok, hInv4, hpos⟩
      · rw [herr]; rfl
      · rw [hok]
        have hocc := searchNand_sound buf nm hs
        have hle := occursIn_countBP_le buf (nmStr nm) hocc
        have hlt := substitute_lt buf nm out hocc hpos
        exact ih (substitute buf nm out) g4 (nid + 3) hInv4 (by omega)

/-- `parse_input` only propagates a result, the `InvalidInputError`, or an
`int()` `ValueError`. -/
theorem parse_input_propagate (s : List Char) : isPropagatedOk (parse_input s) = true :=
  parseLoop_propagate (countBP s) s emptyGraph 0 graphInv_empty (le_refl _)

/-- The greedy digit run stops exactly at the first non-digit. -/
theorem digitRun_append : ∀ (A : List Char) (x : List Char) (c : Char),
    (∀ d ∈ A, d.isDigit = true) → c.isDigit = false →
    digitRun (A ++ c :: x) = A.length := by
  intro A
  induction A with
  | nil =>
    intro x c _ hc
    simp [digitRun, hc]
  | cons a A ih =>
    intro x c hA hc
    have ha : a.isDigit = true := hA a (List.mem_cons_self a A)
    simp only [List.cons_append]
    unfold digitRun
    rw [if_pos ha, ih x c (fun d hd => hA d (List.mem_cons_of_mem a hd)) hc]
    simp

/-- A successful anchored attempt makes the backtracker succeed from there. -/
theorem tryA_of_tryAAt (rest0 : List Char) (k : Nat) (r : Nat × Nat)
    (h : tryAAt rest0 k = some r) : tryA rest0 k = some r := by
  cases k with
  | zero => unfold tryA; exact h
  | succ k => unfold tryA; rw [h]

/-! ### Claims -/

/-- Claim C1: for every pair of integers `a` and `b`, the gate's computed
output value equals `2 ^ w - |~(a & b)|` where `w` is obtained by starting at
4 and doubling while `|~(a & b)| ≥ 2 ^ w` — i.e. the smallest width in the
sequence 4, 8, 16, ... with `2 ^ w > |~(a & b)|` (formalized by `wSpec`) —
and this output value is always a non-negative integer. -/
theorem C1_gate_output (a b : Int) :
    nandValue a b =
      2 ^ wSpec (pyNot (pyLand a b)).natAbs - ((pyNot (pyLand a b)).natAbs : Int) ∧
    0 ≤ nandValue a b := by
  constructor
  · show (2 : Int) ^ growBits (pyNot (pyLand a b)).natAbs -
        ((pyNot (pyLand a b)).natAbs : Int) =
      2 ^ wSpec (pyNot (pyLand a b)).natAbs - ((pyNot (pyLand a b)).natAbs : Int)
    rw [growBits_eq_wSpec]
  · exact le_of_lt (nandValue_pos a b)

/-- Claim C2: after the reduction loop stops, the remaining buffer is split
on `.` into integer operands; exactly one operand is returned as the final
result, exactly two give their bitwise AND (no complement step), and more
than two fail with the invalid-input-format error. -/
theorem C2_finalize (g : Graph) (buf : List Char) (l : List Int)
    (h : mapPyInt (pySplit buf) = some l) :
    (∀ a, l = [a] → finalize buf g = Except.ok (g, a)) ∧
    (∀ a b, l = [a, b] → finalize buf g = Except.ok (g, pyLand a b)) ∧
    (2 < l.length → finalize buf g = Except.error PErr.invalidInput) := by
  refine ⟨?_, ?_, ?_⟩
  · intro a hl
    subst hl
    unfold finalize
    rw [h]
  · intro a b hl
    subst hl
    unfold finalize
    rw [h]
  · intro hlen
    unfold finalize
    rw [h]
    cases l with
    | nil => simp at hlen
    | cons a r1 =>
      cases r1 with
      | nil => simp at hlen
      | cons b r2 =>
        cases r2 with
        | nil => simp at hlen
        | cons c r3 => rfl

/-- Witness for C2: concrete residual buffers with one, two and three
operands. -/
theorem C2_finalize_witness :
    finalize ("15".data) emptyGraph = Except.ok (emptyGraph, 15) ∧
    finalize ("15.3".data) emptyGraph = Except.ok (emptyGraph, pyLand 15 3) ∧
    finalize ("1.2.3".data) emptyGraph = Except.error PErr.invalidInput :=
  ⟨(C2_finalize emptyGraph ("15".data) [15] rfl).1 15 rfl,
   (C2_finalize emptyGraph ("15.3".data) [15, 3] rfl).2.1 15 3 rfl,
   (C2_finalize emptyGraph ("1.2.3".data) [1, 2, 3] rfl).2.2 (by decide)⟩

/-- Claim C3 counterexample: in a graph storing the vertex with id 0 and
value 5 (with its adjacency entry), a gate whose `input_a` is the distinct
node object with id 1 and the same value 5 has both endpoint values present,
yet `add_edge` fails (the adjacency dict is keyed by object identity, so the
lookup raises a `KeyError`) instead of succeeding as the claim states. -/
theorem C3_cex :
    has_node ⟨[⟨0, 5⟩], [(0, [])]⟩ (⟨1, 5⟩ : Node) = true ∧
    has_node ⟨[⟨0, 5⟩], [(0, [])]⟩ (⟨0, 5⟩ : Node) = true ∧
    add_edge ⟨[⟨0, 5⟩], [(0, [])]⟩ ⟨⟨1, 5⟩, ⟨0, 5⟩⟩ = Except.error GErr.keyError :=
  ⟨rfl, rfl, rfl⟩

/-- Claim C3 amended: `insert_edge` fails with the "nodes not present" error
exactly when the value of `input_a` or of `input_b` is absent from the
vertex set; provided `input_a` is itself an adjacency key (the stored vertex
object — always the case under Reducer usage), it otherwise succeeds, adding
`input_b` to the destination set of `input_a`, and calling it again with the
same gate object is idempotent — the graph is unchanged and no duplicate
adjacency entry appears.  (With a merely equal-valued distinct `input_a`
object the adjacency lookup raises a `KeyError` instead.) -/
theorem C3_add_edge (g : Graph) (e : NAND)
    (hkey : ∃ ds, lookupEdges g.edges e.input_a.nid = some ds) :
    isNodesNotPresentErr (add_edge g e) =
      !(has_node g e.input_a && has_node g e.input_b) ∧
    isOkGraph (add_edge g e) = (has_node g e.input_a && has_node g e.input_b) ∧
    (∀ g3, add_edge g e = Except.ok g3 → add_edge g3 e = Except.ok g3) := by
  obtain ⟨ds, hds⟩ := hkey
  by_cases h1 : has_node g e.input_a = true
  · by_cases h2 : has_node g e.input_b = true
    · have hcond : (!(has_node g e.input_a && has_node g e.input_b)) = false := by
        rw [h1, h2]; rfl
      by_cases hmem : e.input_b ∈ ds
      · have hok : add_edge g e = Except.ok g := by
          simp only [add_edge, hds, hcond, Bool.false_eq_true, if_false, if_pos hmem]
        refine ⟨?_, ?_, ?_⟩
        · rw [hok, hcond]; rfl
        · rw [hok, h1, h2]; rfl
        · intro g3 hg3
          rw [hok] at hg3
          injection hg3 with hg3
          subst hg3
          exact hok
      · have hok : add_edge g e =
            Except.ok ⟨g.nodes, updateEdges g.edges e.input_a.nid (ds ++ [e.input_b])⟩ := by
          simp only [add_edge, hds, hcond, Bool.false_eq_true, if_false, if_neg hmem]
        refine ⟨?_, ?_, ?_⟩
        · rw [hok, hcond]; rfl
        · rw [hok, h1, h2]; rfl
        · intro g3 hg3
          rw [hok] at hg3
          injection hg3 with hg3
          subst hg3
          have hcond2 : (!(has_node ⟨g.nodes,
              updateEdges g.edges e.input_a.nid (ds ++ [e.input_b])⟩ e.input_a &&
              has_node ⟨g.nodes,
                updateEdges g.edges e.input_a.nid (ds ++ [e.input_b])⟩ e.input_b)) = false :=
            hcond
          have hds2 : lookupEdges
              (updateEdges g.edges e.input_a.nid (ds ++ [e.input_b])) e.input_a.nid =
              some (ds ++ [e.input_b]) :=
            lookupEdges_update_self g.edges e.input_a.nid (ds ++ [e.input_b]) ds hds
          have hmem2 : e.input_b ∈ ds ++ [e.input_b] := by simp
          simp only [add_edge, hcond2, Bool.false_eq_true, if_false, hds2, if_pos hmem2]
    · have h2f : has_node g e.input_b = false := by
        cases hh : has_node g e.input_b
        · rfl
        · exact absurd hh h2
      have herr : add_edge g e = Except.error GErr.nodesNotPresent := by
        simp [add_edge, h2f]
      refine ⟨?_, ?_, ?_⟩
      · rw [herr, h2f]; simp [isNodesNotPresentErr]
      · rw [herr, h2f]; simp [isOkGraph]
      · intro g3 hg3
        rw [herr] at hg3
        cases hg3
  · have h1f : has_node g e.input_a = false := by
      cases hh : has_node g e.input_a
      · rfl
      · exact absurd hh h1
    have herr : add_edge g e = Except.error GErr.nodesNotPresent := by
      simp [add_edge, h1f]
    refine ⟨?_, ?_, ?_⟩
    · rw [herr, h1f]; simp [isNodesNotPresentErr]
    · rw [herr, h1f]; simp [isOkGraph]
    · intro g3 hg3
      rw [herr] at hg3
      cases hg3

/-- Witness for the amended C3 at a concrete graph and gate whose `input_a`
is the stored vertex object. -/
theorem C3_add_edge_witness :
    isNodesNotPresentErr (add_edge ⟨[⟨0, 5⟩], [(0, [])]⟩ ⟨⟨0, 5⟩, ⟨0, 5⟩⟩) =
      !(has_node ⟨[⟨0, 5⟩], [(0, [])]⟩ (⟨0, 5⟩ : Node) &&
        has_node ⟨[⟨0, 5⟩], [(0, [])]⟩ (⟨0, 5⟩ : Node)) ∧
    isOkGraph (add_edge ⟨[⟨0, 5⟩], [(0, [])]⟩ ⟨⟨0, 5⟩, ⟨0, 5⟩⟩) =
      (has_node ⟨[⟨0, 5⟩], [(0, [])]⟩ (⟨0, 5⟩ : Node) &&
        has_node ⟨[⟨0, 5⟩], [(0, [])]⟩ (⟨0, 5⟩ : Node)) ∧
    (∀ g3, add_edge ⟨[⟨0, 5⟩], [(0, [])]⟩ ⟨⟨0, 5⟩, ⟨0, 5⟩⟩ = Except.ok g3 →
      add_edge g3 ⟨⟨0, 5⟩, ⟨0, 5⟩⟩ = Except.ok g3) :=
  C3_add_edge ⟨[⟨0, 5⟩], [(0, [])]⟩ ⟨⟨0, 5⟩, ⟨0, 5⟩⟩ ⟨[], rfl⟩

/-- Claim C4 counterexample: on the input "a" the evaluation fails with the
`int()` `ValueError` — a failure other than the invalid-input-format error
propagates out of `parse_input`. -/
theorem C4_cex :
    parse_input ("a".data) = Except.error PErr.valueError ∧
    isInvalidInputErr (parse_input ("a".data)) = false :=
  ⟨rfl, rfl⟩

/-- Claim C4 amended: the failures `parse_input` propagates are the
invalid-input-format error and the `int()` `ValueError` (raised for empty
captured operand groups or non-numeric residual text); graph-layer errors
(lookup miss, duplicate node, dangling edge, adjacency key miss) and loop
exhaustion never propagate. -/
theorem C4_propagated (s : List Char) : isPropagatedOk (parse_input s) = true :=
  parse_input_propagate s

/-- Claim C5 counterexample: the substring `!(1x2)` — whose two operands are
separated by `x`, not a literal dot — is matched and would be reduced (the
dot in the pattern `!\((\d*).(\d*)\)` is an unescaped wildcard). -/
theorem C5_cex :
    searchNand ("!(1x2)".data) = some ⟨['1'], 'x', ['2']⟩ ∧
    nmStr ⟨['1'], 'x', ['2']⟩ = "!(1x2)".data ∧
    ('x' == '.') = false :=
  ⟨rfl, rfl, rfl⟩

/-- Claim C5 amended: at each reduction step the scanner matches exactly the
substrings of the form `!` `(` digits C digits `)` where the separator C is
any single character except a newline (not only a literal dot): every match
decomposes the buffer that way with all-digit operand groups, and conversely
any buffer headed by such a substring is matched there, with the operand
groups captured, also when the separator is not a dot. -/
theorem C5_scanner :
    (∀ (s : List Char) (nm : NMatch), matchAt s = some nm →
      (∃ rest, s = nmStr nm ++ rest) ∧ (∀ c ∈ nm.a, c.isDigit = true) ∧
        (∀ c ∈ nm.b, c.isDigit = true) ∧ (nm.sep == '\n') = false) ∧
    (∀ (A B : List Char) (c : Char) (rest : List Char),
      (∀ d ∈ A, d.isDigit = true) → (∀ d ∈ B, d.isDigit = true) →
      c.isDigit = false → (c == '\n') = false →
      matchAt ('!' :: '(' :: (A ++ c :: (B ++ ')' :: rest))) = some ⟨A, c, B⟩) := by
  constructor
  · exact matchAt_sound
  · intro A B c rest hA hB hc hcn
    have hdr0 : digitRun (A ++ c :: (B ++ ')' :: rest)) = A.length :=
      digitRun_append A _ c hA hc
    have hdrop1 : (A ++ c :: (B ++ ')' :: rest)).drop A.length = c :: (B ++ ')' :: rest) :=
      List.drop_left A _
    have hdr2 : digitRun (B ++ ')' :: rest) = B.length :=
      digitRun_append B _ ')' hB (by decide)
    have hdropB : (B ++ ')' :: rest).drop B.length = ')' :: rest := List.drop_left B _
    have hclose : closeAt (B ++ ')' :: rest) B.length = true := by
      unfold closeAt
      rw [hdropB]
      rfl
    have htb : tryB (B ++ ')' :: rest) B.length = some B.length := tryB_at _ _ hclose
    have htAAt : tryAAt (A ++ c :: (B ++ ')' :: rest)) A.length =
        some (A.length, B.length) := by
      unfold tryAAt
      rw [hdrop1]
      show (if c = '\n' then none
          else
            match tryB (B ++ ')' :: rest) (digitRun (B ++ ')' :: rest)) with
            | some bl => some (A.length, bl)
            | none => none) = some (A.length, B.length)
      rw [if_neg (beq_eq_false_iff_ne.mp hcn)]
      rw [hdr2, htb]
    have htA : tryA (A ++ c :: (B ++ ')' :: rest)) A.length = some (A.length, B.length) :=
      tryA_of_tryAAt _ _ _ htAAt
    have hstep : matchAt ('!' :: '(' :: (A ++ c :: (B ++ ')' :: rest))) =
        matchCore (A ++ c :: (B ++ ')' :: rest)) := by
      show (if ('!' : Char) = '!' ∧ ('(' : Char) = '(' then
          matchCore (A ++ c :: (B ++ ')' :: rest)) else none) =
        matchCore (A ++ c :: (B ++ ')' :: rest))
      rw [if_pos ⟨rfl, rfl⟩]
    rw [hstep]
    unfold matchCore
    rw [hdr0, htA]
    show (match (A ++ c :: (B ++ ')' :: rest)).drop A.length with
        | c' :: s2 => some (⟨(A ++ c :: (B ++ ')' :: rest)).take A.length, c', s2.take B.length⟩ : NMatch)
        | [] => none) = some ⟨A, c, B⟩
    rw [hdrop1]
    show some (⟨(A ++ c :: (B ++ ')' :: rest)).take A.length, c,
        (B ++ ')' :: rest).take B.length⟩ : NMatch) = some ⟨A, c, B⟩
    rw [List.take_left, List.take_left]

/-- Witness for the amended C5: the dot-separated pair `!(1.2)` matches, and
so does the `x`-separated pair `!(1x2)`. -/
theorem C5_scanner_witness :
    ((∃ rest, "!(1.2)".data = nmStr ⟨['1'], '.', ['2']⟩ ++ rest) ∧
      (∀ c ∈ ['1'], c.isDigit = true) ∧ (∀ c ∈ ['2'], c.isDigit = true) ∧
      (('.' : Char) == '\n') = false) ∧
    matchAt ("!(1x2)".data) = some ⟨['1'], 'x', ['2']⟩ :=
  ⟨C5_scanner.1 ("!(1.2)".data) ⟨['1'], '.', ['2']⟩ rfl,
   C5_scanner.2 ['1'] ['2'] 'x' [] (by decide) (by decide) (by decide) (by decide)⟩

/-- Claim C6: evaluating `!(10.20).!(30.40)` succeeds with a graph whose
vertices are exactly the four inputs 10, 20, 30, 40 plus the two gate
outputs 15 and 7, whose edges are exactly 10 → 20 and 30 → 40, and whose
final result 7 is the bitwise AND of the two gate outputs. -/
theorem C6_end_to_end :
    parse_input ("!(10.20).!(30.40)".data) =
      Except.ok (⟨[⟨0, 10⟩, ⟨1, 20⟩, ⟨2, 15⟩, ⟨3, 30⟩, ⟨4, 40⟩, ⟨5, 7⟩],
        [(0, [⟨1, 20⟩]), (1, []), (2, []), (3, [⟨4, 40⟩]), (4, []), (5, [])]⟩, 7) ∧
    nandValue 10 20 = 15 ∧ nandValue 30 40 = 7 ∧
    (7 : Int) = pyLand (nandValue 10 20) (nandValue 30 40) :=
  ⟨rfl, rfl, rfl, rfl⟩

/-- Claim C7: during a run of `parse_input`, both gate input nodes are
inserted (ignoring duplicates) before the edge, so at every `add_edge` call
both endpoint values are present as vertices, and the dangling-edge
("nodes not present") failure branch is unreachable when the graph is driven
only through the Reducer protocol. -/
theorem C7_no_dangling :
    (∀ (g : Graph) (n1 n2 : Node) (g1 g2 : Graph),
      add_node g n1 true = Except.ok g1 → add_node g1 n2 true = Except.ok g2 →
      has_node g2 n1 = true ∧ has_node g2 n2 = true) ∧
    (∀ s : List Char, isDanglingErr (parse_input s) = false) := by
  constructor
  · intro g n1 n2 g1 g2 h1 h2
    rw [add_node_true] at h1 h2
    injection h1 with h1
    injection h2 with h2
    subst h1
    subst h2
    exact ⟨addNodeResult_has_mono _ _ _ (addNodeResult_has_self g n1),
      addNodeResult_has_self _ _⟩
  · intro s
    have h := parse_input_propagate s
    cases hp : parse_input s with
    | ok r => rfl
    | error e =>
      rw [hp] at h
      cases e with
      | invalidInput => rfl
      | valueError => rfl
      | graphErr e2 => exact Bool.noConfusion h
      | indexError => exact Bool.noConfusion h
      | fuelOut => exact Bool.noConfusion h

/-- Witness for C7 at a concrete graph build and a concrete evaluation. -/
theorem C7_no_dangling_witness :
    (has_node ⟨[⟨0, 1⟩, ⟨1, 2⟩], [(0, []), (1, [])]⟩ (⟨0, 1⟩ : Node) = true ∧
      has_node ⟨[⟨0, 1⟩, ⟨1, 2⟩], [(0, []), (1, [])]⟩ (⟨1, 2⟩ : Node) = true) ∧
    isDanglingErr (parse_input ("!(1.2).3".data)) = false :=
  ⟨C7_no_dangling.1 emptyGraph ⟨0, 1⟩ ⟨1, 2⟩ ⟨[⟨0, 1⟩], [(0, [])]⟩
      ⟨[⟨0, 1⟩, ⟨1, 2⟩], [(0, []), (1, [])]⟩ rfl rfl,
   C7_no_dangling.2 ("!(1.2).3".data)⟩

/-- Claim C8 counterexample: on the buffer `!(1.2).!(1.2)` the first
iteration substitutes every occurrence of the matched text (`str.replace`
replaces all copies), eliminating both groups at once — the group count
drops from 2 to 0, not by exactly one. -/
theorem C8_cex :
    searchNand ("!(1.2).!(1.2)".data) = some ⟨['1'], '.', ['2']⟩ ∧
    countBP ("!(1.2).!(1.2)".data) = 2 ∧
    substitute ("!(1.2).!(1.2)".data) ⟨['1'], '.', ['2']⟩ (nandValue 1 2) = "15.15".data ∧
    countBP ("15.15".data) = 0 ∧
    reduceStep emptyGraph 0 ⟨['1'], '.', ['2']⟩ =
      Except.ok (⟨[⟨0, 1⟩, ⟨1, 2⟩, ⟨2, 15⟩], [(0, [⟨1, 2⟩]), (1, []), (2, [])]⟩, 3, 15) :=
  ⟨rfl, rfl, rfl, rfl, rfl⟩

/-- Claim C8 amended: the reduction loop terminates on every input: each
iteration strictly decreases the number of unresolved `!(` group markers in
the buffer, eliminating at least one innermost group (and every text-equal
copy of it at once); consequently the loop bound of `parse_input` is never
exhausted. -/
theorem C8_termination :
    (∀ (buf : List Char) (nm : NMatch) (out : Int),
      searchNand buf = some nm → 0 < out →
      countBP (substitute buf nm out) < countBP buf) ∧
    (∀ s : List Char, isFuelOutErr (parse_input s) = false) := by
  constructor
  · intro buf nm out hs hpos
    exact substitute_lt buf nm out (searchNand_sound buf nm hs) hpos
  · intro s
    have h := parse_input_propagate s
    cases hp : parse_input s with
    | ok r => rfl
    | error e =>
      rw [hp] at h
      cases e with
      | invalidInput => rfl
      | valueError => rfl
      | graphErr e2 => exact Bool.noConfusion h
      | indexError => exact Bool.noConfusion h
      | fuelOut => exact Bool.noConfusion h

/-- Witness for the amended C8 at a concrete buffer and evaluation. -/
theorem C8_termination_witness :
    countBP (substitute ("!(1.2).3".data) ⟨['1'], '.', ['2']⟩ 15) <
      countBP ("!(1.2).3".data) ∧
    isFuelOutErr (parse_input ("5".data)) = false :=
  ⟨C8_termination.1 ("!(1.2).3".data) ⟨['1'], '.', ['2']⟩ 15 rfl (by decide),
   C8_termination.2 ("5".data)⟩

/-- Claim C9: `insert_node` adds the vertex with an empty destination set
when no equal-valued vertex is present; on a duplicate value it raises
"node already exists" when `ignore_errors` is unset and is a no-op
otherwise — and therefore the vertex set never acquires two vertices with
the same value. -/
theorem C9_add_node (g : Graph) (n : Node) (ig : Bool) :
    (has_node g n = false →
      add_node g n ig = Except.ok ⟨g.nodes ++ [n], g.edges ++ [(n.nid, [])]⟩) ∧
    (has_node g n = true → ig = false → add_node g n ig = Except.error GErr.nodeExists) ∧
    (has_node g n = true → ig = true → add_node g n ig = Except.ok g) ∧
    (distinctValues g → ∀ g2, add_node g n ig = Except.ok g2 → distinctValues g2) := by
  refine ⟨?_, ?_, ?_, ?_⟩
  · intro h
    simp [add_node, h]
  · intro h hig
    subst hig
    simp [add_node, h]
  · intro h hig
    subst hig
    simp [add_node, h]
  · intro hd g2 hok
    unfold add_node at hok
    by_cases h : has_node g n = true
    · rw [if_pos h] at hok
      by_cases hig2 : ig = false
      · rw [if_pos hig2] at hok
        cases hok
      · rw [if_neg hig2] at hok
        injection hok with hok
        subst hok
        exact hd
    · rw [if_neg h] at hok
      injection hok with hok
      subst hok
      have hfalse : has_node g n = false := by
        cases hh : has_node g n
        · rfl
        · exact absurd hh h
      unfold distinctValues at hd ⊢
      simp only []
      rw [List.pairwise_append]
      refine ⟨hd, List.pairwise_singleton _ _, ?_⟩
      intro x hx y hy
      have hyn : y = n := by simpa using hy
      subst hyn
      unfold has_node at hfalse
      rw [List.any_eq_false] at hfalse
      have hne := hfalse x hx
      simp only [beq_iff_eq] at hne
      exact hne

/-- Witness for C9: fresh insert, duplicate-value failure, duplicate-value
no-op, and invariant preservation, at concrete nodes. -/
theorem C9_add_node_witness :
    add_node emptyGraph ⟨0, 5⟩ false = Except.ok ⟨[⟨0, 5⟩], [(0, [])]⟩ ∧
    add_node ⟨[⟨0, 5⟩], [(0, [])]⟩ ⟨1, 5⟩ false = Except.error GErr.nodeExists ∧
    add_node ⟨[⟨0, 5⟩], [(0, [])]⟩ ⟨1, 5⟩ true = Except.ok ⟨[⟨0, 5⟩], [(0, [])]⟩ ∧
    distinctValues (⟨[⟨0, 5⟩], [(0, [])]⟩ : Graph) :=
  ⟨(C9_add_node emptyGraph ⟨0, 5⟩ false).1 rfl,
   (C9_add_node ⟨[⟨0, 5⟩], [(0, [])]⟩ ⟨1, 5⟩ false).2.1 rfl rfl,
   (C9_add_node ⟨[⟨0, 5⟩], [(0, [])]⟩ ⟨1, 5⟩ true).2.2.1 rfl rfl,
   (C9_add_node emptyGraph ⟨0, 5⟩ false).2.2.2 List.Pairwise.nil
     ⟨[⟨0, 5⟩], [(0, [])]⟩ rfl⟩

/-- Claim C10 counterexample: the input `1.2.3` contains no substring
matching the NAND pattern, yet `parse_input` does not return a graph and a
final integer — it raises the invalid-input-format error. -/
theorem C10_cex :
    searchNand ("1.2.3".data) = none ∧
    parse_input ("1.2.3".data) = Except.error PErr.invalidInput ∧
    isOkResult (parse_input ("1.2.3".data)) = false :=
  ⟨rfl, rfl, rfl⟩

/-- Claim C10 amended: for every input with no substring matching the NAND
pattern, the reduction loop performs zero iterations and never mutates the
graph — the evaluation is exactly the finalization of the untouched buffer
against the empty graph, and whenever it returns a result at all the
returned graph is empty (inputs with more than two residual operands, or
with operands that are not integers, fail instead of returning). -/
theorem C10_no_match (s : List Char) (h : searchNand s = none) :
    parse_input s = finalize s emptyGraph ∧
    (∀ g out, parse_input s = Except.ok (g, out) → g = emptyGraph) := by
  have hred : parse_input s = finalize s emptyGraph := by
    unfold parse_input
    cases hc : countBP s with
    | zero =>
      unfold parseLoop
      rw [h]
    | succ k =>
      unfold parseLoop
      rw [h]
  refine ⟨hred, ?_⟩
  intro g out hok
  rw [hred] at hok
  unfold finalize at hok
  cases hm : mapPyInt (pySplit s) with
  | none =>
    rw [hm] at hok
    cases hok
  | some output =>
    rw [hm] at hok
    cases output with
    | nil => cases hok
    | cons o1 r1 =>
      cases r1 with
      | nil =>
        injection hok with hok
        injection hok with hok1 hok2
        exact hok1.symm
      | cons o2 r2 =>
        cases r2 with
        | nil =>
          injection hok with hok
          injection hok with hok1 hok2
          exact hok1.symm
        | cons o3 r3 => cases hok

/-- Witness for the amended C10 at the single-literal input `5`. -/
theorem C10_no_match_witness :
    parse_input ("5".data) = finalize ("5".data) emptyGraph ∧
    (∀ g out, parse_input ("5".data) = Except.ok (g, out) → g = emptyGraph) :=
  C10_no_match ("5".data) rfl

end NandGraph

